import Mathlib

/-!
Verification of the TherapistIndex data-pipeline core (scripts/utils.py,
scripts/clean_data.py, scripts/enrich_data.py, scripts/verify_licenses.py).

The Python code is shallowly embedded: strings are Lean `String`s manipulated
through their `List Char` data, pandas data frames are `List Rec` of an explicit
record structure, and every pipeline stage is a pure Lean function mirroring the
source line by line.  Python `str.lower`/`str.upper`/`str.title`, `\w`, `\s` and
`\d` are modelled at the ASCII level, which covers every configured phrase list
and alias in the repository.  Missing pandas cells (NaN) are modelled as `none`
of an `Option String`; pandas `duplicated`/`drop_duplicates` treat NaN cells as
equal to each other, which `Option` equality reproduces exactly.
-/

/-- ASCII case folding, the fragment of Python `str.lower` exercised here. -/
def lowerChar (c : Char) : Char :=
  if 'A' ≤ c ∧ c ≤ 'Z' then Char.ofNat (c.toNat + 32) else c

/-- ASCII upper casing, the fragment of Python `str.upper` exercised here. -/
def upperChar (c : Char) : Char :=
  if 'a' ≤ c ∧ c ≤ 'z' then Char.ofNat (c.toNat - 32) else c

/-- ASCII decimal digit, Python regex `\d`. -/
def isDigitC (c : Char) : Bool := '0' ≤ c ∧ c ≤ '9'

/-- ASCII letter. -/
def isAlphaC (c : Char) : Bool := ('a' ≤ c ∧ c ≤ 'z') ∨ ('A' ≤ c ∧ c ≤ 'Z')

/-- Python regex `\w` at the ASCII level: letter, digit or underscore. -/
def isWordChar (c : Char) : Bool := isAlphaC c || isDigitC c || c = '_'

/-- Python `str.isspace` / regex `\s` at the ASCII level. -/
def isSpaceC (c : Char) : Bool :=
  c = ' ' || c = '\t' || c = '\n' || c = '\r' || c = '\x0b' || c = '\x0c'

/-- `text.lower()` on the character list. -/
def lowerL (cs : List Char) : List Char := cs.map lowerChar

/-- `text.lower()` on strings. -/
def lowerS (s : String) : String := ⟨lowerL s.data⟩

/-- `str.strip()`: drop leading and trailing whitespace. -/
def stripL (cs : List Char) : List Char :=
  ((cs.dropWhile isSpaceC).reverse.dropWhile isSpaceC).reverse

/-- `str.strip()` on strings. -/
def stripS (s : String) : String := ⟨stripL s.data⟩

/-- Python substring test `pat in text` (empty pattern is always contained):
some contiguous slice of `text` equals `pat`. -/
def containsSub (pat text : String) : Bool :=
  (List.range (text.data.length + 1)).any fun i =>
    decide ((text.data.drop i).take pat.data.length = pat.data)

/-- `True` when position `i` of `cs` holds a word character. -/
def wordAt (cs : List Char) (i : Nat) : Bool :=
  match cs[i]? with
  | some c => isWordChar c
  | none => false

/-- Python regex `\b` at position `i` of `cs`: the word-ness of the characters
on the two sides of the position differs (out of range counts as non-word). -/
def boundaryAt (cs : List Char) (i : Nat) : Bool :=
  (if i = 0 then false else wordAt cs (i - 1)) != wordAt cs i

/-- `re.search(r"\b" + re.escape(pat) + r"\b", text)` as a Boolean: some
occurrence of `pat` in `text` is delimited by word boundaries on both sides. -/
def searchWord (pat text : String) : Bool :=
  (List.range (text.data.length + 1)).any fun i =>
    decide ((text.data.drop i).take pat.data.length = pat.data)
      && boundaryAt text.data i && boundaryAt text.data (i + pat.data.length)

/-- Insert a string into a strictly sorted list, skipping it when already
present; building block for Python `sorted(set(...))`. -/
def insertStr (s : String) : List String → List String
  | [] => [s]
  | t :: ts =>
    if s < t then s :: t :: ts
    else if s = t then t :: ts
    else t :: insertStr s ts

/-- Python `sorted(set(l))`: the strictly increasing enumeration of the
distinct members of `l`. -/
def sortedDedup (l : List String) : List String := l.foldr insertStr []

/-!
A small backtracking regular-expression engine used to embed the Python
regexes of `is_valid_url`, `extract_education` and `extract_profile_image`
verbatim.  `mat` enumerates all match outcomes in Python's priority order
(leftmost alternative first, greedy repetition first), so `.head?` is the
match Python's engine reports.  `fuel` only bounds repetition unrolling; each
counted iteration must consume at least one character, so `length + 1` fuel is
never the limiting factor.
-/

/-- Regular-expression syntax: literal char, char class, sequencing,
alternation, greedy counted repetition `{lo,hi}` (`hi = none` is unbounded),
the single capture group, and the `$` anchor. -/
inductive RE where
  | eps
  | chr (c : Char)
  | cls (p : Char → Bool)
  | seq (a b : RE)
  | alt (a b : RE)
  | rep (a : RE) (lo : Nat) (hi : Option Nat)
  | grp (a : RE)
  | eos

/-- All ways `r` can match a prefix of `cs`, in Python's backtracking
priority order; each outcome is the remaining suffix paired with the capture
of the (single) group, when it participated. -/
def mat (fuel : Nat) (r : RE) (cs : List Char) :
    List (List Char × Option (List Char)) :=
  match r with
  | .eps => [(cs, none)]
  | .eos => if cs = [] ∨ cs = ['\n'] then [(cs, none)] else []
  | .chr c =>
    match cs with
    | [] => []
    | d :: rest => if d = c then [(rest, none)] else []
  | .cls p =>
    match cs with
    | [] => []
    | d :: rest => if p d then [(rest, none)] else []
  | .seq a b =>
    (mat fuel a cs).flatMap fun o1 =>
      (mat fuel b o1.1).map fun o2 => (o2.1, o1.2 <|> o2.2)
  | .alt a b => mat fuel a cs ++ mat fuel b cs
  | .grp a =>
    (mat fuel a cs).map fun o =>
      (o.1, some (cs.take (cs.length - o.1.length)))
  | .rep a lo hi =>
    let stop : List (List Char × Option (List Char)) :=
      if lo = 0 then [(cs, none)] else []
    let more :=
      if hi = some 0 then []
      else
        match fuel with
        | 0 => []
        | fuel' + 1 =>
          (mat fuel' a cs).flatMap fun o1 =>
            if o1.1.length = cs.length then []
            else
              (mat fuel' (.rep a (lo - 1) (hi.map (· - 1))) o1.1).map
                fun o2 => (o2.1, o1.2 <|> o2.2)
    more ++ stop
termination_by (fuel, sizeOf r)
decreasing_by
  all_goals simp_wf
  all_goals first
    | exact Prod.Lex.right fuel (by omega)
    | exact Prod.Lex.left _ _ (by omega)

/-- `re.findall(pattern, text)` for a pattern with exactly one group: the
capture of every non-overlapping match, scanning left to right (a zero-width
match advances by one character, as in Python). -/
def reFindall : Nat → RE → List Char → List (List Char)
  | 0, _, _ => []
  | fuel + 1, r, cs =>
    match (mat (cs.length + 1) r cs).head? with
    | some o =>
      let consumed := cs.length - o.1.length
      let captured := o.2.getD []
      captured ::
        (if consumed = 0 then
          match cs with
          | [] => []
          | _ :: rest => reFindall fuel r rest
        else reFindall fuel r o.1)
    | none =>
      match cs with
      | [] => []
      | _ :: rest => reFindall fuel r rest

/-- `re.search(pattern, text)`: group capture of the leftmost match. -/
def reSearch : Nat → RE → List Char → Option (Option (List Char))
  | 0, _, _ => none
  | fuel + 1, r, cs =>
    match (mat (cs.length + 1) r cs).head? with
    | some o => some o.2
    | none =>
      match cs with
      | [] => none
      | _ :: rest => reSearch fuel r rest

/-- `bool(pattern.match(text))`: a match anchored at the start. -/
def reMatchB (r : RE) (cs : List Char) : Bool :=
  ((mat (cs.length + 1) r cs).head?).isSome

/-- Case-sensitive literal. -/
def strLit (s : String) : RE :=
  s.data.foldr (fun c r => RE.seq (RE.chr c) r) RE.eps

/-- Case-insensitive literal (the `re.IGNORECASE` flag). -/
def strLitCi (s : String) : RE :=
  s.data.foldr (fun c r => RE.seq (RE.cls fun d => lowerChar d = lowerChar c) r) RE.eps

/-- Alternation over a list, first alternative preferred. -/
def altList : List RE → RE
  | [] => RE.eps
  | [r] => r
  | r :: rest => RE.alt r (altList rest)

/-- Sequencing over a list. -/
def seqList : List RE → RE
  | [] => RE.eps
  | [r] => r
  | r :: rest => RE.seq r (seqList rest)

/-- `?` (greedy). -/
def reOpt (r : RE) : RE := RE.rep r 0 (some 1)

/-- `+` (greedy). -/
def rePlus (r : RE) : RE := RE.rep r 1 none

/-- `*` (greedy). -/
def reStar (r : RE) : RE := RE.rep r 0 none

/-- ASCII letter or digit, regex `[a-zA-Z0-9]`. -/
def isAlnumC (c : Char) : Bool := isAlphaC c || isDigitC c

/-! Embeddings of `scripts/utils.py`. -/

/-- `utils.standardize_phone` (utils.py:80): strip non-digits, drop a leading
country-code `1` from an 11-digit number, demand exactly 10 digits, format as
`(NNN) NNN-NNNN`; anything else yields the empty string. -/
def standardize_phone (phone : String) : String :=
  if phone = "" then ""
  else
    let digits := phone.data.filter isDigitC
    let digits :=
      if digits.length = 11 ∧ digits.head? = some '1' then digits.drop 1 else digits
    if digits.length ≠ 10 then ""
    else ⟨'(' :: digits.take 3 ++ ')' :: ' ' :: (digits.drop 3).take 3
            ++ '-' :: digits.drop 6⟩

/-- The `STATE_MAP` literal of `utils.standardize_state` (utils.py:105). -/
def stateTable : List (String × String) :=
  [("alabama", "AL"), ("alaska", "AK"), ("arizona", "AZ"), ("arkansas", "AR"),
   ("california", "CA"), ("colorado", "CO"), ("connecticut", "CT"),
   ("delaware", "DE"), ("district of columbia", "DC"), ("florida", "FL"),
   ("georgia", "GA"), ("hawaii", "HI"), ("idaho", "ID"), ("illinois", "IL"),
   ("indiana", "IN"), ("iowa", "IA"), ("kansas", "KS"), ("kentucky", "KY"),
   ("louisiana", "LA"), ("maine", "ME"), ("maryland", "MD"),
   ("massachusetts", "MA"), ("michigan", "MI"), ("minnesota", "MN"),
   ("mississippi", "MS"), ("missouri", "MO"), ("montana", "MT"),
   ("nebraska", "NE"), ("nevada", "NV"), ("new hampshire", "NH"),
   ("new jersey", "NJ"), ("new mexico", "NM"), ("new york", "NY"),
   ("north carolina", "NC"), ("north dakota", "ND"), ("ohio", "OH"),
   ("oklahoma", "OK"), ("oregon", "OR"), ("pennsylvania", "PA"),
   ("rhode island", "RI"), ("south carolina", "SC"), ("south dakota", "SD"),
   ("tennessee", "TN"), ("texas", "TX"), ("utah", "UT"), ("vermont", "VT"),
   ("virginia", "VA"), ("washington", "WA"), ("west virginia", "WV"),
   ("wisconsin", "WI"), ("wyoming", "WY")]

/-- `utils.standardize_state` (utils.py:97). -/
def standardize_state (state : String) : String :=
  if state = "" then ""
  else
    let st := stripS state
    if st.length = 2 then ⟨st.data.map upperChar⟩
    else
      match stateTable.lookup (lowerS st) with
      | some ab => ab
      | none => ⟨(st.data.map upperChar).take 2⟩

/-- Python `str.title` at the ASCII level: a letter is uppercased after a
non-letter and lowercased after a letter (the Boolean carries whether the
previous character was a letter). -/
def titleGo : Bool → List Char → List Char
  | _, [] => []
  | prevAlpha, c :: rest =>
    if isAlphaC c then
      (if prevAlpha then lowerChar c else upperChar c) :: titleGo true rest
    else c :: titleGo false rest

/-- Python `str.title`. -/
def titleL (cs : List Char) : List Char := titleGo false cs

/-- Case-sensitive literal prefix match returning the remaining suffix. -/
def matchPrefixCS : List Char → List Char → Option (List Char)
  | [], cs => some cs
  | _, [] => none
  | p :: ps, c :: cs => if c = p then matchPrefixCS ps cs else none

/-- One pass of `re.sub(r"\b(alt1|alt2|...)\b", replacement, text)` for
literal alternatives with literal replacements: scan left to right; at a word
boundary try the alternatives in order, requiring a word boundary after the
matched literal as well; on a match emit the replacement and resume after the
matched span (boundaries are judged on the original characters). -/
def subWordAltsGo (alts : List (List Char × List Char)) :
    Nat → Option Char → List Char → List Char
  | 0, _, cs => cs
  | fuel + 1, prev, cs =>
    match cs with
    | [] => []
    | c :: rest =>
      let prevW := match prev with | some p => isWordChar p | none => false
      let hit :=
        if prevW != isWordChar c then
          alts.findSome? fun pr =>
            match matchPrefixCS pr.1 (c :: rest) with
            | some r2 =>
              let lastW := match pr.1.getLast? with
                | some p => isWordChar p
                | none => prevW
              let nextW := match r2.head? with
                | some d => isWordChar d
                | none => false
              if lastW != nextW then some (pr.1, pr.2, r2) else none
            | none => none
        else none
      match hit with
      | some (pat, rep, r2) => rep ++ subWordAltsGo alts fuel pat.getLast? r2
      | none => c :: subWordAltsGo alts fuel (some c) rest

/-- Word-bounded literal substitution over a whole string. -/
def subWordAlts (alts : List (String × String)) (cs : List Char) : List Char :=
  subWordAltsGo (alts.map fun p => (p.1.data, p.2.data)) (cs.length + 1) none cs

/-- The five abbreviation-fixing substitutions of `utils.standardize_address`
(utils.py:141-146), applied in source order. -/
def fixAbbrevs (cs : List Char) : List Char :=
  subWordAlts [("Usa", "USA"), ("Us", "US")]
    (subWordAlts [("Nw", "NW"), ("Ne", "NE"), ("Sw", "SW"), ("Se", "SE")]
      (subWordAlts [("Nw", "NW")]
        (subWordAlts [("Va", "VA")]
          (subWordAlts [("Md", "MD")]
            (subWordAlts [("Dc", "DC")] cs)))))

/-- Python `str.split(",")` (keeping empty segments), against the current
segment accumulated in reverse. -/
def splitOnCommaGo : List Char → List Char → List (List Char)
  | acc, [] => [acc.reverse]
  | acc, c :: rest =>
    if c = ',' then acc.reverse :: splitOnCommaGo [] rest
    else splitOnCommaGo (c :: acc) rest

/-- Python `str.split(",")`. -/
def splitOnComma (cs : List Char) : List (List Char) := splitOnCommaGo [] cs

/-- `", ".join(parts)` at the character level. -/
def joinCommaSpace : List (List Char) → List Char
  | [] => []
  | p :: ps => p ++ ps.flatMap fun q => ',' :: ' ' :: q

/-- `utils.standardize_address` (utils.py:126): strip, split on commas,
strip + title-case each part, re-uppercase known abbreviations, rejoin with
`", "`. -/
def standardize_address (address : String) : String :=
  if address = "" then ""
  else
    let parts := splitOnComma (stripL address.data)
    ⟨joinCommaSpace (parts.map fun part => fixAbbrevs (titleL (stripL part)))⟩

/-- The label part `[a-zA-Z0-9](?:[a-zA-Z0-9-]{0,61}[a-zA-Z0-9])?\.` of the
URL-validation regex. -/
def urlLabelRE : RE :=
  seqList [RE.cls isAlnumC,
    reOpt (seqList [RE.rep (RE.cls fun c => isAlnumC c || c = '-') 0 (some 61),
      RE.cls isAlnumC]),
    RE.chr '.']

/-- The regex of `utils.is_valid_url` (utils.py:156):
`^https?://(?:label)+[a-zA-Z]{2,}(?:/[^\s]*)?$`. -/
def urlRE : RE :=
  seqList [strLit "http", reOpt (RE.chr 's'), strLit "://",
    rePlus urlLabelRE, RE.rep (RE.cls isAlphaC) 2 none,
    reOpt (seqList [RE.chr '/', reStar (RE.cls fun c => !isSpaceC c)]),
    RE.eos]

/-- `utils.is_valid_url` (utils.py:151): structural URL check via the
anchored regex above (`pattern.match` anchors at the start, `$` at the end). -/
def is_valid_url (url : String) : Bool :=
  if url = "" then false
  else reMatchB urlRE (stripL url.data)

/-- `str.rstrip("/")`. -/
def rstripSlash (cs : List Char) : List Char :=
  (cs.reverse.dropWhile (· = '/')).reverse

/-- `utils.normalize_url` (utils.py:165): strip blanks and trailing slashes,
prefix `https://` when no scheme is present. -/
def normalize_url (url : String) : String :=
  if url = "" then ""
  else
    let u := rstripSlash (stripL url.data)
    if u = [] then ""
    else if (matchPrefixCS "http://".data u).isSome
         || (matchPrefixCS "https://".data u).isSome then ⟨u⟩
    else ⟨"https://".data ++ u⟩

/-- `utils.guess_license_type` (utils.py:177): first hit in a fixed cascade of
case-insensitive substring tests over `f"{name} {category}".lower()`. -/
def guess_license_type (name category : String) : String :=
  let text := lowerS (name ++ " " ++ category)
  if containsSub "psychiatr" text || containsSub ", md" text
      || containsSub "m.d." text then "MD/Psychiatrist"
  else if containsSub "psyd" text || containsSub "psy.d" text then "PsyD"
  else if containsSub "ph.d" text || containsSub "phd" text
      || containsSub "psychologist" text then "PhD"
  else if containsSub "lcsw" text || containsSub "lcsw-c" text then "LCSW"
  else if containsSub "lcpc" text then "LCPC"
  else if containsSub "lpc" text then "LPC"
  else if containsSub "lcmft" text then "LCMFT"
  else if containsSub "lmft" text || containsSub "marriage and family" text then "LMFT"
  else ""

/-- The indicator list of `utils.is_group_practice` (utils.py:204). -/
def groupIndicators : List String :=
  ["group", "associates", "& associates", "center", "centre",
   "clinic", "institute", "practice", "services", "wellness",
   "counseling center", "therapy center", "behavioral health",
   "mental health services", "psychological services",
   "partners", "collective", "collaborative"]

/-- `utils.is_group_practice` (utils.py:202). -/
def is_group_practice (name : String) : Bool :=
  let nameLower := if name = "" then "" else lowerS name
  groupIndicators.any fun ind => containsSub ind nameLower

/-- `utils.match_insurance` (utils.py:215): every alias is tested as a plain
substring of the lowercased text; result is `sorted(set(...))` of the
canonical names hit. -/
def match_insurance (text : String) (lookup : List (String × String)) :
    List String :=
  if text = "" then []
  else
    let tl := lowerS text
    sortedDedup (lookup.filterMap fun p =>
      if containsSub p.1 tl then some p.2 else none)

/-- The per-alias test of `utils.match_specializations` (utils.py:240-246):
word-boundary search for aliases of length at most 3, plain substring
otherwise. -/
def aliasHit (a : String) (tl : String) : Bool :=
  if a.length ≤ 3 then searchWord a tl else containsSub a tl

/-- `utils.match_specializations` (utils.py:230). -/
def match_specializations (text : String) (lookup : List (String × String)) :
    List String :=
  if text = "" then []
  else
    let tl := lowerS text
    sortedDedup (lookup.filterMap fun p =>
      if aliasHit p.1 tl then some p.2 else none)

/-- The `no_indicators` list of `utils.detect_accepting_patients`
(utils.py:258). -/
def acceptNoIndicators : List String :=
  ["not accepting new", "not currently accepting", "no longer accepting",
   "practice is full", "caseload is full", "currently full"]

/-- The `waitlist_indicators` list (utils.py:266). -/
def acceptWaitlistIndicators : List String :=
  ["waitlist", "wait list", "waiting list", "join the waitlist"]

/-- The `yes_indicators` list (utils.py:272). -/
def acceptYesIndicators : List String :=
  ["accepting new patients", "accepting new clients", "currently accepting",
   "now accepting", "welcoming new", "taking new patients",
   "taking new clients", "open to new", "availability for new",
   "schedule an appointment", "book an appointment", "book a session",
   "free consultation", "complimentary consultation"]

/-- `utils.detect_accepting_patients` (utils.py:250): the negative list is
scanned first, then the waitlist list, then the positive list; the first list
with a (case-insensitive substring) hit decides, default `Unknown`. -/
def detect_accepting_patients (text : String) : String :=
  if text = "" then "Unknown"
  else
    let tl := lowerS text
    if acceptNoIndicators.any (containsSub · tl) then "No"
    else if acceptWaitlistIndicators.any (containsSub · tl) then "Waitlist"
    else if acceptYesIndicators.any (containsSub · tl) then "Yes"
    else "Unknown"

/-- The `video_indicators` list of `utils.detect_telehealth` (utils.py:308). -/
def videoIndicators : List String :=
  ["telehealth", "teletherapy", "video session", "video therapy",
   "online therapy", "online counseling", "virtual session",
   "virtual therapy", "virtual appointment", "doxy", "zoom",
   "simplepractice telehealth", "remote therapy"]

/-- The `phone_indicators` list (utils.py:314). -/
def phoneIndicators : List String :=
  ["phone session", "phone therapy", "telephone session",
   "telephone therapy", "phone counseling"]

/-- The telehealth `no_indicators` list (utils.py:318). -/
def telehealthNoIndicators : List String :=
  ["in-person only", "in person only", "office visits only",
   "no telehealth", "does not offer telehealth"]

/-- `utils.detect_telehealth` (utils.py:300). -/
def detect_telehealth (text : String) : String :=
  if text = "" then "Unknown"
  else
    let tl := lowerS text
    if telehealthNoIndicators.any (containsSub · tl) then "No"
    else
      let hasVideo := videoIndicators.any (containsSub · tl)
      let hasPhone := phoneIndicators.any (containsSub · tl)
      if hasVideo && hasPhone then "Yes - Both"
      else if hasVideo then "Yes - Video"
      else if hasPhone then "Yes - Phone"
      else "Unknown"

/-- The sliding-scale `yes_indicators` list (utils.py:341). -/
def slidingYesIndicators : List String :=
  ["sliding scale", "sliding fee", "income-based",
   "reduced fee", "reduced rate", "financial hardship",
   "ability to pay", "affordable rates"]

/-- The sliding-scale `no_indicators` list (utils.py:346). -/
def slidingNoIndicators : List String :=
  ["no sliding scale", "does not offer sliding", "do not offer sliding"]

/-- `utils.detect_sliding_scale` (utils.py:336). -/
def detect_sliding_scale (text : String) : String :=
  if text = "" then "Unknown"
  else
    let tl := lowerS text
    if slidingNoIndicators.any (containsSub · tl) then "No"
    else if slidingYesIndicators.any (containsSub · tl) then "Yes"
    else "Unknown"

/-- Up to four leading decimal digits, with the rest (the greedy `\d{2,4}`;
the caller checks the two-digit minimum). -/
def takeDigits4 (cs : List Char) : List Char × List Char :=
  let d := (cs.takeWhile isDigitC).take 4
  (d, cs.drop d.length)

/-- The character class `[-–—to]` of the price regex (utils.py:367). -/
def isDashRangeChar (c : Char) : Bool :=
  c = '-' || c = '–' || c = '—' || c = 't' || c = 'o'

/-- `re.findall(r"\$\s*(\d{2,4})\s*(?:[-–—to]+\s*\$?\s*(\d{2,4}))?", text)`.
The pattern is deterministic (each quantifier's greedy choice is the only one
its successor can accept), so the scan needs no backtracking: at a `$`, skip
spaces, demand 2–4 digits, skip spaces; a nonempty run of range-connector
characters followed by optional spaces, an optional `$`, optional spaces and
2–4 further digits extends the match with a second group, otherwise the
optional part matches empty and scanning resumes after the skipped spaces. -/
def priceScan : Nat → List Char → List (List Char × Option (List Char))
  | 0, _ => []
  | _ + 1, [] => []
  | fuel + 1, c :: rest =>
    if c ≠ '$' then priceScan fuel rest
    else
      let r1 := rest.dropWhile isSpaceC
      let (d1, r2) := takeDigits4 r1
      if d1.length < 2 then priceScan fuel rest
      else
        let r3 := r2.dropWhile isSpaceC
        if r3.takeWhile isDashRangeChar = [] then (d1, none) :: priceScan fuel r3
        else
          let r4 := r3.dropWhile isDashRangeChar
          let r5 := r4.dropWhile isSpaceC
          let r6 := match r5 with
            | '$' :: t => t.dropWhile isSpaceC
            | l => l
          let (d2, r7) := takeDigits4 r6
          if d2.length < 2 then (d1, none) :: priceScan fuel r3
          else (d1, some d2) :: priceScan fuel r7

/-- `int(...)` on a decimal digit string. -/
def digitsVal (ds : List Char) : Nat :=
  ds.foldl (fun n c => 10 * n + (c.toNat - 48)) 0

/-- The `prices` accumulation loop of `utils.extract_price_range`
(utils.py:371-375): the first group of every match, then the second group
when it participated, in scan order. -/
def collectedPrices (text : String) : List Nat :=
  (priceScan (text.data.length + 1) text.data).flatMap fun m =>
    digitsVal m.1 :: (match m.2 with | some d => [digitsVal d] | none => [])

/-- `utils.extract_price_range` (utils.py:359): collect the group values of
every regex match, keep those in the band `[20, 600]`, return their min and
max (`(None, None)` when no match or nothing in the band). -/
def extract_price_range (text : String) : Option Nat × Option Nat :=
  if text = "" then (none, none)
  else
    let ms := priceScan (text.data.length + 1) text.data
    if ms = [] then (none, none)
    else
      let valid := (collectedPrices text).filter fun p => 20 ≤ p && p ≤ 600
      match valid with
      | [] => (none, none)
      | v :: vs => (some (vs.foldl Nat.min v), some (vs.foldl Nat.max v))

/-- The `platforms` table of `utils.detect_telehealth_platform`
(utils.py:388), in source (dict-insertion) order. -/
def platformTable : List (String × List String) :=
  [("doxy.me", ["doxy", "doxy.me"]),
   ("Zoom", ["zoom"]),
   ("SimplePractice", ["simplepractice", "simple practice"]),
   ("TherapyNotes", ["therapynotes", "therapy notes"]),
   ("VSee", ["vsee"]),
   ("Google Meet", ["google meet"]),
   ("Microsoft Teams", ["microsoft teams", "ms teams"]),
   ("TheraNest", ["theranest"]),
   ("Jane App", ["jane app", "janeapp"])]

/-- `utils.detect_telehealth_platform` (utils.py:383). -/
def detect_telehealth_platform (text : String) : String :=
  if text = "" then ""
  else
    let tl := lowerS text
    let found := platformTable.filterMap fun p =>
      if p.2.any (containsSub · tl) then some p.1 else none
    if found = [] then "" else String.intercalate ", " found

/-! Embeddings of `scripts/clean_data.py`. -/

/-- One pipeline record (a data-frame row) after column normalization.  Every
field is an `Option String`: `none` is a missing cell (pandas NaN, as produced
by `read_csv(dtype=str)`).  Fields no claim touches (ratings, coordinates,
source bookkeeping) are omitted. -/
structure Rec where
  therapist_name : Option String
  address : Option String
  phone : Option String
  place_id : Option String
  category : Option String
  status : Option String
  state : Option String
  website : Option String
  zip_code : Option String
deriving DecidableEq, Repr

/-- `_name_key` (clean_data.py:117): `str.lower().str.strip()` keeps a missing
name missing. -/
def nameKey (r : Rec) : Option String :=
  r.therapist_name.map fun s => stripS (lowerS s)

/-- `_addr_key` (clean_data.py:118): `fillna("")` then lowercase and strip. -/
def addrKey (r : Rec) : String := stripS (lowerS (r.address.getD ""))

/-- `_phone_key` (clean_data.py:119): `fillna("")` then remove non-digits. -/
def phoneKey (r : Rec) : String := ⟨(r.phone.getD "").data.filter isDigitC⟩

/-- pandas `drop_duplicates(subset, keep="first")` restricted to the rows
satisfying `subject` (rows outside `subject` are kept and contribute no keys):
a subject row is dropped exactly when an earlier subject row produced the same
key.  pandas hashes NaN cells as equal to each other, which the `Option`-valued
keys reproduce. -/
def dropDups {α κ : Type} [DecidableEq κ] (subject : α → Bool) (key : α → κ) :
    List κ → List α → List α
  | _, [] => []
  | seen, r :: rs =>
    if subject r then
      if key r ∈ seen then dropDups subject key seen rs
      else r :: dropDups subject key (key r :: seen) rs
    else r :: dropDups subject key seen rs

/-- `clean_data.remove_duplicates` (clean_data.py:107): keep-first dedup by
place id, then by (name key, address key), then — only among rows whose phone
key has at least 10 digits — by (name key, phone key). -/
def remove_duplicates (df : List Rec) : List Rec :=
  let d1 := dropDups (fun _ => true) (fun r => r.place_id) [] df
  let d2 := dropDups (fun _ => true) (fun r => (nameKey r, addrKey r)) [] d1
  dropDups (fun r => decide (10 ≤ (phoneKey r).length))
    (fun r => (nameKey r, phoneKey r)) [] d2

/-- The keyword lists of `config/filter_keywords.json`, passed as data. -/
structure FilterKeywords where
  exclude_name_contains : List String
  exclude_category_contains : List String
  include_category_contains : List String
  exclude_permanently_closed_indicators : List String
deriving DecidableEq, Repr

/-- `name_exclude` mask (clean_data.py:150-152).  pandas `str.contains`
interprets its pattern as a regex; the keyword lists are metacharacter-free,
for which a regex search is exactly a substring test, as modelled. -/
def nameExcluded (kw : FilterKeywords) (r : Rec) : Bool :=
  kw.exclude_name_contains.any fun k =>
    containsSub (lowerS k) (lowerS (r.therapist_name.getD ""))

/-- `cat_exclude` mask (clean_data.py:155-157). -/
def catExcluded (kw : FilterKeywords) (r : Rec) : Bool :=
  kw.exclude_category_contains.any fun k =>
    containsSub (lowerS k) (lowerS (r.category.getD ""))

/-- `cat_include` mask (clean_data.py:161-163). -/
def catIncluded (kw : FilterKeywords) (r : Rec) : Bool :=
  kw.include_category_contains.any fun k =>
    containsSub (lowerS k) (lowerS (r.category.getD ""))

/-- `clean_data.filter_non_therapists` (clean_data.py:141): drop a record
exactly when `(name_exclude | cat_exclude) & ~cat_include`. -/
def filter_non_therapists (kw : FilterKeywords) (df : List Rec) : List Rec :=
  df.filter fun r => !((nameExcluded kw r || catExcluded kw r) && !catIncluded kw r)

/-- `closed_mask` (clean_data.py:182-185): an indicator occurs in the status
field or in the name field. -/
def closedMask (kw : FilterKeywords) (r : Rec) : Bool :=
  kw.exclude_permanently_closed_indicators.any fun ind =>
    containsSub (lowerS ind) (lowerS (r.status.getD ""))
      || containsSub (lowerS ind) (lowerS (r.therapist_name.getD ""))

/-- `clean_data.remove_closed` (clean_data.py:174). -/
def remove_closed (kw : FilterKeywords) (df : List Rec) : List Rec :=
  df.filter fun r => !closedMask kw r

/-- `str.extract(r"(\d{5})")`: the first run of five consecutive digits, or
nothing. -/
def zip5 : List Char → List Char
  | [] => []
  | c :: rest =>
    let five := (c :: rest).take 5
    if five.length = 5 ∧ five.all isDigitC then five else zip5 rest

/-- `clean_data.standardize_fields` (clean_data.py:193) on one record: phone,
state and address standardization, URL normalization with invalid URLs
cleared, zip reduced to its first five-digit run.  The numeric coercion of
rating/review-count columns concerns fields outside `Rec` and is omitted. -/
def standardizeRec (r : Rec) : Rec :=
  { r with
    phone := some (standardize_phone (r.phone.getD ""))
    state := some (standardize_state (r.state.getD ""))
    address := some (standardize_address (r.address.getD ""))
    website :=
      let w := normalize_url (r.website.getD "")
      some (if w ≠ "" && !is_valid_url w then "" else w)
    zip_code := some ⟨zip5 (r.zip_code.getD "").data⟩ }

/-- `clean_data.standardize_fields` over the batch (row-independent column
transforms). -/
def standardize_fields (df : List Rec) : List Rec := df.map standardizeRec

/-- Steps 1–4 of `clean_data.main` (clean_data.py:357-367): closed-business
filter, non-therapist filter, deduplication, then field standardization.
(Step 5, the optional live-URL probe, is a no-op at its default setting, and
step 6 only adds derived columns outside `Rec`.) -/
def clean_steps (kw : FilterKeywords) (df : List Rec) : List Rec :=
  let df1 := remove_closed kw df
  let df2 := filter_non_therapists kw df1
  let df3 := remove_duplicates df2
  standardize_fields df3

/-- The stage order the spec's control flow asserts (raw records → Field
Normalizer → Record Filter → Deduplicator), stated for comparison with
`clean_steps`; this definition follows the spec's words, not the source. -/
def specOrderedSteps (kw : FilterKeywords) (df : List Rec) : List Rec :=
  remove_duplicates (filter_non_therapists kw (remove_closed kw (standardize_fields df)))

/-! Embeddings of `scripts/enrich_data.py`. -/

/-- A case-insensitive single character. -/
def ciChr (c : Char) : RE := RE.cls fun d => lowerChar d = lowerChar c

/-- `\.?`. -/
def dotOpt : RE := reOpt (RE.chr '.')

/-- Education pattern 1 (enrich_data.py:108):
`(?:education|credentials|degree|training|qualifications)[:\s]*([^\n]{10,200})`. -/
def eduP1 : RE :=
  seqList
    [altList (["education", "credentials", "degree", "training",
      "qualifications"].map strLitCi),
     reStar (RE.cls fun c => c = ':' || isSpaceC c),
     RE.grp (RE.rep (RE.cls fun c => c ≠ '\n') 10 (some 200))]

/-- Education pattern 2 (enrich_data.py:109):
`(?:earned|received|graduated|completed)\s+(?:a\s+|an\s+)?([^\n]{10,150})`. -/
def eduP2 : RE :=
  seqList
    [altList (["earned", "received", "graduated", "completed"].map strLitCi),
     rePlus (RE.cls isSpaceC),
     reOpt (RE.alt (seqList [strLitCi "a", rePlus (RE.cls isSpaceC)])
       (seqList [strLitCi "an", rePlus (RE.cls isSpaceC)])),
     RE.grp (RE.rep (RE.cls fun c => c ≠ '\n') 10 (some 150))]

/-- A degree abbreviation such as `Ph\.?D\.?`: each letter group followed by
an optional dot. -/
def degAbbrev (parts : List String) : RE :=
  seqList (parts.flatMap fun p => [strLitCi p, dotOpt])

/-- Education pattern 3 (enrich_data.py:110): a degree abbreviation, spaces,
optional `in`, then `[^\n,]{5,100}`, all captured. -/
def eduP3 : RE :=
  RE.grp (seqList
    [altList ([["M", "A"], ["M", "S"], ["Ph", "D"], ["Psy", "D"], ["M", "D"],
       ["Ed", "D"], ["M", "S", "W"], ["B", "A"], ["B", "S"]].map degAbbrev),
     rePlus (RE.cls isSpaceC),
     reOpt (seqList [strLitCi "in", rePlus (RE.cls isSpaceC)]),
     RE.rep (RE.cls fun c => c ≠ '\n' && c ≠ ',') 5 (some 100)])

/-- `str.rstrip(".,;")`. -/
def rstripPunct (cs : List Char) : List Char :=
  (cs.reverse.dropWhile fun c => c = '.' || c = ',' || c = ';').reverse

/-- `enrich_data.extract_education` (enrich_data.py:102): findall of the three
patterns in order (pattern 1 over the lowercased text, the others over the raw
text, all case-insensitive); strip and rstrip each candidate, keep the first
three distinct ones longer than 10 characters, semicolon-join. -/
def extract_education (text : String) : String :=
  if text = "" then ""
  else
    let tl := (lowerS text).data
    let ms := reFindall (tl.length + 1) eduP1 tl
      ++ reFindall (text.data.length + 1) eduP2 text.data
      ++ reFindall (text.data.length + 1) eduP3 text.data
    let findings := ms.foldl
      (fun (acc : List String) m =>
        let cleaned : String := ⟨rstripPunct (stripL m)⟩
        if 10 < cleaned.length ∧ cleaned ∉ acc then acc ++ [cleaned] else acc)
      []
    if findings = [] then "" else String.intercalate "; " (findings.take 3)

/-- `["\']`. -/
def quoteCls : RE := RE.cls fun c => c = '"' || c = '\''

/-- `[^"\']`. -/
def notQuoteCls : RE := RE.cls fun c => c ≠ '"' && c ≠ '\''

/-- `[^>]`. -/
def notGtCls : RE := RE.cls fun c => c ≠ '>'

/-- `(?:profile|headshot|photo|avatar|therapist|portrait)`. -/
def imgKeyword : RE :=
  altList (["profile", "headshot", "photo", "avatar", "therapist",
    "portrait"].map strLitCi)

/-- Profile-image pattern 1 (enrich_data.py:85): class/id attribute with a
photo keyword, then the `src` value captured. -/
def imgP1 : RE :=
  seqList [strLitCi "<img", rePlus notGtCls,
    RE.alt (strLitCi "class") (strLitCi "id"), RE.chr '=', quoteCls,
    reStar notQuoteCls, imgKeyword, reStar notQuoteCls, quoteCls,
    rePlus notGtCls, strLitCi "src=", quoteCls,
    RE.grp (rePlus notQuoteCls), quoteCls]

/-- Profile-image pattern 2 (enrich_data.py:86): `src` first, class/id with a
photo keyword afterwards. -/
def imgP2 : RE :=
  seqList [strLitCi "<img", rePlus notGtCls, strLitCi "src=", quoteCls,
    RE.grp (rePlus notQuoteCls), quoteCls, rePlus notGtCls,
    RE.alt (strLitCi "class") (strLitCi "id"), RE.chr '=', quoteCls,
    reStar notQuoteCls, imgKeyword, reStar notQuoteCls, quoteCls]

/-- Profile-image pattern 3 (enrich_data.py:87): `alt` attribute mentioning
photo/headshot/profile, then the `src` value captured. -/
def imgP3 : RE :=
  seqList [strLitCi "<img", rePlus notGtCls, strLitCi "alt=", quoteCls,
    reStar notQuoteCls,
    altList (["photo", "headshot", "profile"].map strLitCi),
    reStar notQuoteCls, quoteCls, rePlus notGtCls, strLitCi "src=", quoteCls,
    RE.grp (rePlus notQuoteCls), quoteCls]

/-- `urllib.parse.urlparse` restricted to `scheme://host...` URLs: the scheme
before the first colon and the host up to the first `/`, `?` or `#`. -/
def splitSchemeHost (url : String) : String × String :=
  let cs := url.data
  let scheme := cs.takeWhile (· ≠ ':')
  let after := (cs.drop (scheme.length + 3))
  let netloc := after.takeWhile fun c => c ≠ '/' && c ≠ '?' && c ≠ '#'
  (⟨scheme⟩, ⟨netloc⟩)

/-- `enrich_data.extract_profile_image` (enrich_data.py:79): the first of the
three patterns that matches wins; a captured URL starting with `/` is made
absolute with the page's scheme and host. -/
def extract_profile_image (html url : String) : String :=
  if html = "" then ""
  else
    let h := html.data
    let res := (reSearch (h.length + 1) imgP1 h)
      <|> (reSearch (h.length + 1) imgP2 h)
      <|> (reSearch (h.length + 1) imgP3 h)
    match res with
    | some capOpt =>
      let img : String := ⟨capOpt.getD []⟩
      if img.data.head? = some '/' then
        let sh := splitSchemeHost url
        sh.1 ++ "://" ++ sh.2 ++ img
      else img
    | none => ""

/-- The `language_map` of `enrich_data.extract_languages`
(enrich_data.py:127). -/
def languageTable : List (String × String) :=
  [("english", "English"), ("spanish", "Spanish"), ("espanol", "Spanish"),
   ("español", "Spanish"), ("mandarin", "Mandarin"), ("chinese", "Mandarin"),
   ("korean", "Korean"), ("vietnamese", "Vietnamese"), ("french", "French"),
   ("arabic", "Arabic"), ("amharic", "Amharic"), ("asl", "ASL"),
   ("american sign language", "ASL"), ("sign language", "ASL"),
   ("portuguese", "Portuguese"), ("hindi", "Hindi"), ("urdu", "Urdu"),
   ("tagalog", "Tagalog"), ("farsi", "Farsi"), ("persian", "Farsi"),
   ("russian", "Russian"), ("japanese", "Japanese"), ("german", "German"),
   ("italian", "Italian"), ("haitian creole", "Haitian Creole"),
   ("creole", "Haitian Creole")]

/-- `enrich_data.extract_languages` (enrich_data.py:123). -/
def extract_languages (text : String) : List String :=
  if text = "" then []
  else
    let tl := lowerS text
    sortedDedup (languageTable.filterMap fun p =>
      if containsSub p.1 tl then some p.2 else none)

/-- The Enrichment Vector: one field per `ENRICHMENT_FIELDS` entry
(enrich_data.py:45).  The two price fields are numeric in the source
(`None`/`int`), hence `Option Nat` here; every other field is a string. -/
structure EnrichVec where
  insurance_accepted : String
  sliding_scale : String
  price_range_min : Option Nat
  price_range_max : Option Nat
  specializations : String
  therapy_approaches : String
  telehealth : String
  telehealth_platform : String
  accepting_new_patients : String
  education : String
  languages : String
  profile_image_url : String
  bio_summary : String
deriving DecidableEq, Repr

/-- The `{field: "" for field in ENRICHMENT_FIELDS}` dictionary: every field
holds its empty value (empty string, or `none` for the numeric prices). -/
def emptyEnrichVec : EnrichVec :=
  ⟨"", "", none, none, "", "", "", "", "", "", "", "", ""⟩

/-- `", ".join(l) if l else ""`. -/
def joinComma (l : List String) : String :=
  if l = [] then "" else String.intercalate ", " l

/-- `enrich_data.enrich_from_text` (enrich_data.py:163): all sub-extractors
applied to one blob of text (the crawler supplies the same blob for `text`
and `html`). -/
def enrich_from_text (text html url : String)
    (insuranceLookup specLookup approachLookup : List (String × String)) :
    EnrichVec :=
  let pr := extract_price_range text
  { insurance_accepted := joinComma (match_insurance text insuranceLookup)
    sliding_scale := detect_sliding_scale text
    price_range_min := pr.1
    price_range_max := pr.2
    specializations := joinComma (match_specializations text specLookup)
    therapy_approaches := joinComma (match_specializations text approachLookup)
    telehealth := detect_telehealth text
    telehealth_platform := detect_telehealth_platform text
    accepting_new_patients := detect_accepting_patients text
    education := extract_education text
    languages := joinComma (extract_languages text)
    profile_image_url := extract_profile_image html url
    bio_summary := if text = "" then "" else ⟨(stripL text.data).take 500⟩ }

/-- The per-row body of `enrich_data.process_batch` (enrich_data.py:244-263):
an absent or empty website yields the all-empty dictionary without crawling; a
failed crawl (`crawl_website` returned `None`) yields the all-empty dictionary;
otherwise `enrich_from_text` runs on the retrieved text.  (A NaN website cell
is truthy in Python, so the source attempts the crawl and the crawler's
exception handler returns `None` — the same all-empty outcome modelled here.) -/
def processRow (website crawlResult : Option String)
    (insuranceLookup specLookup approachLookup : List (String × String)) :
    EnrichVec :=
  let url := website.getD ""
  if url = "" then emptyEnrichVec
  else
    match crawlResult with
    | none => emptyEnrichVec
    | some text => enrich_from_text text text url insuranceLookup specLookup approachLookup

/-! Embeddings of `scripts/verify_licenses.py`. -/

/-- Case-insensitive literal prefix match returning the remaining suffix. -/
def matchPrefixCi : List Char → List Char → Option (List Char)
  | [], cs => some cs
  | _, [] => none
  | p :: ps, c :: cs => if lowerChar c = lowerChar p then matchPrefixCi ps cs else none

/-- The credential alternatives of the first substitution of
`LicenseVerifier._extract_name_parts` (verify_licenses.py:58), in source
order. -/
def credAlts : List String :=
  ["LCSW", "LPC", "LMFT", "PsyD", "PhD", "MD", "LCPC", "LCMFT", "MA", "MS",
   "MSW", "MEd", "EdD", "NCC", "ACS", "LICSW"]

/-- First credential alternative matching case-insensitively at the head. -/
def credAltMatch (cs : List Char) : Option (List Char) :=
  credAlts.findSome? fun a => matchPrefixCi a.data cs

/-- `[-\w]`. -/
def isWordHyphen (c : Char) : Bool := isWordChar c || c = '-'

/-- `re.sub(r",?\s*(LCSW|...)[-\w]*", "", name, flags=IGNORECASE)`
(verify_licenses.py:58).  The pattern is deterministic: a consumed comma must
be followed by the whitespace run and an alternative (no alternative begins
with a comma or whitespace, so shorter greedy choices can never succeed), and
the trailing `[-\w]*` is maximal. -/
def credSub : Nat → List Char → List Char
  | 0, cs => cs
  | _ + 1, [] => []
  | fuel + 1, c :: rest =>
    let attempt :=
      if c = ',' then
        match credAltMatch (rest.dropWhile isSpaceC) with
        | some r2 => some (r2.dropWhile isWordHyphen)
        | none => none
      else
        match credAltMatch ((c :: rest).dropWhile isSpaceC) with
        | some r2 => some (r2.dropWhile isWordHyphen)
        | none => none
    match attempt with
    | some r => credSub fuel r
    | none => c :: credSub fuel rest

/-- The business-suffix alternatives of the second substitution
(verify_licenses.py:64), in source order. -/
def bizAlts : List String :=
  ["LLC", "Inc", "PLLC", "PC", "Associates", "& Associates", "Group",
   "Center", "Practice"]

/-- `re.sub(r"\b(LLC|Inc|...)\b", "", name, flags=IGNORECASE)`
(verify_licenses.py:64): at a word boundary, the first alternative that
matches and is followed by a word boundary is removed (boundaries are judged
on the original characters; `prev` carries the character before the scan
position). -/
def bizSub : Nat → Option Char → List Char → List Char
  | 0, _, cs => cs
  | _ + 1, _, [] => []
  | fuel + 1, prev, c :: rest =>
    let prevW := match prev with | some p => isWordChar p | none => false
    let hit :=
      if prevW != isWordChar c then
        bizAlts.findSome? fun a =>
          match matchPrefixCi a.data (c :: rest) with
          | some r2 =>
            let lastW := match a.data.getLast? with
              | some p => isWordChar p
              | none => prevW
            let nextW := match r2.head? with
              | some d => isWordChar d
              | none => false
            if lastW != nextW then some (a.data.length, r2) else none
          | none => none
      else none
    match hit with
    | some nr => bizSub fuel ((c :: rest).take nr.1).getLast? nr.2
    | none => c :: bizSub fuel (some c) rest

/-- `re.sub(r"^Dr\.?\s+", "", name, flags=IGNORECASE)`
(verify_licenses.py:68): drop a leading `Dr`/`Dr.` honorific followed by
whitespace. -/
def drSub (cs : List Char) : List Char :=
  match matchPrefixCi "dr".data cs with
  | some after =>
    match after with
    | '.' :: a2 =>
      match a2 with
      | d :: _ => if isSpaceC d then a2.dropWhile isSpaceC else cs
      | [] => cs
    | d :: _ => if isSpaceC d then after.dropWhile isSpaceC else cs
    | [] => cs
  | none => cs

/-- The name-cleaning part of `_extract_name_parts` (verify_licenses.py:57-68):
credential substitution, strip, business-suffix substitution, strip, honorific
removal. -/
def cleanNameS (name : String) : String :=
  let s1 := stripL (credSub (name.data.length + 1) name.data)
  let s2 := stripL (bizSub (s1.length + 1) none s1)
  ⟨drSub s2⟩

/-- One step of Python `str.split()` (whitespace split, no empty tokens),
consumed by `foldr`. -/
def splitWsAcc (c : Char) (acc : List (List Char)) : List (List Char) :=
  if isSpaceC c then [] :: acc
  else
    match acc with
    | [] => [[c]]
    | w :: ws => (c :: w) :: ws

/-- Python `str.split()`. -/
def pySplit (s : String) : List String :=
  ((s.data.foldr splitWsAcc []).filter (· ≠ [])).map fun w => ⟨w⟩

/-- `LicenseVerifier._extract_name_parts` (verify_licenses.py:53): clean the
name, split on whitespace, and return (first token, last token), with the
first component empty when a single token remains and both empty when nothing
remains. -/
def extract_name_parts (name : String) : String × String :=
  if name = "" then ("", "")
  else
    match pySplit (cleanNameS name) with
    | [] => ("", "")
    | [p] => ("", p)
    | p :: q :: rest => (p, rest.getLastD q)

/-! Concrete fixtures for counterexamples and witnesses. -/

/-- Keyword configuration with empty lists (the filters keep everything). -/
def kwEmpty : FilterKeywords := ⟨[], [], [], []⟩

/-- Fixture: same name as `recSpace`, same address up to spacing after the
comma, distinct place id. -/
def recComma : Rec :=
  ⟨some "Jane", some "1 A St,DC", none, some "p1", none, none, none, none, none⟩

/-- Fixture: address differs from `recComma` only by the space following the
comma, which `standardize_address` normalizes away. -/
def recSpace : Rec :=
  ⟨some "Jane", some "1 A St, DC", none, some "p2", none, none, none, none, none⟩

/-- Fixture record with no place id; name, address and phone all differ from
`recNoId2`. -/
def recNoId1 : Rec :=
  ⟨some "Alice Smith", some "1 A St", some "1112223333", none, none, none,
   none, none, none⟩

/-- Fixture record with no place id, unrelated to `recNoId1` in every key. -/
def recNoId2 : Rec :=
  ⟨some "Bob Jones", some "2 B St", some "4445556666", none, none, none,
   none, none, none⟩

/-- Fixture for the rescue rule: name matches the exclusion phrase `center`,
category matches the inclusion phrase `therapy`. -/
def healingRec : Rec :=
  ⟨some "Healing Center", none, none, none, some "Individual Therapy", none,
   none, none, none⟩

/-- Fixture keyword lists for the rescue rule. -/
def kwRescue : FilterKeywords := ⟨["center"], [], ["therapy"], []⟩

/-- The psychiatrist/MD markers of `guess_license_type` (utils.py:183). -/
def mdMarker (t : String) : Bool :=
  containsSub "psychiatr" t || containsSub ", md" t || containsSub "m.d." t

/-- The PsyD markers (utils.py:185). -/
def psydMarker (t : String) : Bool :=
  containsSub "psyd" t || containsSub "psy.d" t

/-- The PhD markers (utils.py:187). -/
def phdMarker (t : String) : Bool :=
  containsSub "ph.d" t || containsSub "phd" t || containsSub "psychologist" t

/-- The LCSW markers (utils.py:189). -/
def lcswMarker (t : String) : Bool :=
  containsSub "lcsw" t || containsSub "lcsw-c" t

/-- The LCPC marker (utils.py:191). -/
def lcpcMarker (t : String) : Bool := containsSub "lcpc" t

/-- The LPC marker (utils.py:193). -/
def lpcMarker (t : String) : Bool := containsSub "lpc" t

/-- The LCMFT marker (utils.py:195). -/
def lcmftMarker (t : String) : Bool := containsSub "lcmft" t

/-- The LMFT markers (utils.py:197). -/
def lmftMarker (t : String) : Bool :=
  containsSub "lmft" t || containsSub "marriage and family" t

/-! Lemmas about `sortedDedup`. -/

theorem mem_insertStr (a s : String) (l : List String) :
    a ∈ insertStr s l ↔ a = s ∨ a ∈ l := by
  induction l with
  | nil => simp [insertStr]
  | cons t ts ih =>
    by_cases h1 : s < t
    · simp [insertStr, h1]
    · by_cases h2 : s = t
      · subst h2
        simp [insertStr, h1]
      · simp only [insertStr, if_neg h1, if_neg h2, List.mem_cons, ih]
        tauto

theorem pairwise_insertStr (s : String) (l : List String)
    (h : l.Pairwise (· < ·)) : (insertStr s l).Pairwise (· < ·) := by
  induction l with
  | nil => simp [insertStr]
  | cons t ts ih =>
    rcases List.pairwise_cons.mp h with ⟨ht, hts⟩
    by_cases h1 : s < t
    · rw [insertStr, if_pos h1]
      refine List.pairwise_cons.mpr ⟨?_, h⟩
      intro b hb
      rcases List.mem_cons.mp hb with rfl | hb
      · exact h1
      · exact lt_trans h1 (ht b hb)
    · by_cases h2 : s = t
      · rw [insertStr, if_neg h1, if_pos h2]
        exact h
      · have hts' : t < s := by
          rcases lt_trichotomy s t with h | h | h
          · exact absurd h h1
          · exact absurd h h2
          · exact h
        rw [insertStr, if_neg h1, if_neg h2]
        refine List.pairwise_cons.mpr ⟨?_, ih hts⟩
        intro b hb
        rcases (mem_insertStr b s ts).mp hb with rfl | hb
        · exact hts'
        · exact ht b hb

theorem mem_sortedDedup (a : String) (l : List String) :
    a ∈ sortedDedup l ↔ a ∈ l := by
  induction l with
  | nil => simp [sortedDedup]
  | cons t ts ih =>
    simp only [sortedDedup, List.foldr_cons]
    rw [mem_insertStr]
    simp [sortedDedup] at ih
    simp [ih]

theorem pairwise_sortedDedup (l : List String) :
    (sortedDedup l).Pairwise (· < ·) := by
  induction l with
  | nil => simp [sortedDedup]
  | cons t ts ih => exact pairwise_insertStr t _ ih

/-! Shared lemmas about the embedded operations. -/

section DropDupsLemmas

variable {α κ : Type} [DecidableEq κ] (subject : α → Bool) (key : α → κ)

theorem dropDups_sublist :
    ∀ (l : List α) (seen : List κ), List.Sublist (dropDups subject key seen l) l := by
  intro l
  induction l with
  | nil => intro seen; simp [dropDups]
  | cons r rs ih =>
    intro seen
    by_cases hs : subject r
    · by_cases hk : key r ∈ seen
      · simp only [dropDups, if_pos hs, if_pos hk]
        exact (ih seen).cons r
      · simp only [dropDups, if_pos hs, if_neg hk]
        exact (ih (key r :: seen)).cons₂ r
    · simp only [dropDups, if_neg hs]
      exact (ih seen).cons₂ r

theorem dropDups_nodup :
    ∀ (l : List α) (seen : List κ),
      (((dropDups subject key seen l).filter subject).map key).Nodup ∧
      ∀ k ∈ ((dropDups subject key seen l).filter subject).map key, k ∉ seen := by
  intro l
  induction l with
  | nil => intro seen; simp [dropDups]
  | cons r rs ih =>
    intro seen
    by_cases hs : subject r
    · by_cases hk : key r ∈ seen
      · simpa only [dropDups, if_pos hs, if_pos hk] using ih seen
      · simp only [dropDups, if_pos hs, if_neg hk, List.filter_cons_of_pos hs,
          List.map_cons, List.nodup_cons]
        rcases ih (key r :: seen) with ⟨hnd, hseen⟩
        refine ⟨⟨?_, hnd⟩, ?_⟩
        · intro hmem
          exact (hseen _ hmem) (List.mem_cons_self _ _)
        · intro k hkmem
          rcases List.mem_cons.mp hkmem with rfl | hkmem
          · exact hk
          · intro hks
            exact (hseen _ hkmem) (List.mem_cons_of_mem _ hks)
    · simp only [dropDups, if_neg hs, List.filter_cons_of_neg hs]
      exact ih seen

theorem dropDups_fixpoint :
    ∀ (l : List α) (seen : List κ),
      ((l.filter subject).map key).Nodup →
      (∀ k ∈ (l.filter subject).map key, k ∉ seen) →
      dropDups subject key seen l = l := by
  intro l
  induction l with
  | nil => intro seen _ _; simp [dropDups]
  | cons r rs ih =>
    intro seen hnd hseen
    by_cases hs : subject r
    · have hmemkey : key r ∈ ((r :: rs).filter subject).map key := by
        simp [List.filter_cons_of_pos hs]
      have hk : key r ∉ seen := hseen _ hmemkey
      simp only [dropDups, if_pos hs, if_neg hk]
      rw [List.filter_cons_of_pos hs, List.map_cons, List.nodup_cons] at hnd
      refine congrArg (r :: ·) (ih (key r :: seen) hnd.2 ?_)
      intro k hkmem
      intro hor
      rcases List.mem_cons.mp hor with rfl | hin
      · exact hnd.1 hkmem
      · exact hseen k (by simp [List.filter_cons_of_pos hs, hkmem]) hin
    · simp only [dropDups, if_neg hs]
      rw [List.filter_cons_of_neg hs] at hnd hseen
      exact congrArg (r :: ·) (ih seen hnd hseen)

end DropDupsLemmas

theorem foldl_min_le (vs : List Nat) :
    ∀ (v c : Nat), c ∈ v :: vs → vs.foldl Nat.min v ≤ c := by
  induction vs with
  | nil =>
    intro v c hc
    simp at hc
    simp [hc]
  | cons w ws ih =>
    intro v c hc
    simp only [List.foldl_cons]
    rcases List.mem_cons.mp hc with rfl | hc
    · exact le_trans (ih (Nat.min c w) (Nat.min c w) (by simp)) (Nat.min_le_left _ _)
    · rcases List.mem_cons.mp hc with rfl | hc
      · exact le_trans (ih (Nat.min v c) (Nat.min v c) (by simp)) (Nat.min_le_right _ _)
      · exact ih (Nat.min v w) c (List.mem_cons_of_mem _ hc)

theorem foldl_min_mem (vs : List Nat) :
    ∀ v : Nat, vs.foldl Nat.min v ∈ v :: vs := by
  induction vs with
  | nil => intro v; simp
  | cons w ws ih =>
    intro v
    simp only [List.foldl_cons]
    rcases List.mem_cons.mp (ih (Nat.min v w)) with h | h
    · have hm : Nat.min v w = v ∨ Nat.min v w = w := by
        by_cases hle : v ≤ w
        · exact Or.inl (Nat.min_eq_left hle)
        · exact Or.inr (Nat.min_eq_right (Nat.le_of_not_le hle))
      rw [h]
      rcases hm with hm | hm <;> simp [hm]
    · simp [h]

theorem foldl_max_ge (vs : List Nat) :
    ∀ (v c : Nat), c ∈ v :: vs → c ≤ vs.foldl Nat.max v := by
  induction vs with
  | nil =>
    intro v c hc
    simp at hc
    simp [hc]
  | cons w ws ih =>
    intro v c hc
    simp only [List.foldl_cons]
    rcases List.mem_cons.mp hc with rfl | hc
    · exact le_trans (Nat.le_max_left _ w) (ih (Nat.max c w) (Nat.max c w) (by simp))
    · rcases List.mem_cons.mp hc with rfl | hc
      · exact le_trans (Nat.le_max_right v _) (ih (Nat.max v c) (Nat.max v c) (by simp))
      · exact ih (Nat.max v w) c (List.mem_cons_of_mem _ hc)

theorem foldl_max_mem (vs : List Nat) :
    ∀ v : Nat, vs.foldl Nat.max v ∈ v :: vs := by
  induction vs with
  | nil => intro v; simp
  | cons w ws ih =>
    intro v
    simp only [List.foldl_cons]
    rcases List.mem_cons.mp (ih (Nat.max v w)) with h | h
    · have hm : Nat.max v w = v ∨ Nat.max v w = w := by
        by_cases hle : v ≤ w
        · exact Or.inr (Nat.max_eq_right hle)
        · exact Or.inl (Nat.max_eq_left (Nat.le_of_not_le hle))
      rw [h]
      rcases hm with hm | hm <;> simp [hm]
    · simp [h]

theorem priceScan_no_dollar :
    ∀ (fuel : Nat) (cs : List Char), '$' ∉ cs → priceScan fuel cs = [] := by
  intro fuel
  induction fuel with
  | zero => intro cs _; simp [priceScan]
  | succ f ih =>
    intro cs hcs
    match cs with
    | [] => simp [priceScan]
    | c :: rest =>
      have hc : c ≠ '$' := fun h => hcs (h ▸ List.mem_cons_self c rest)
      simp only [priceScan, if_pos hc]
      exact ih rest fun h => hcs (List.mem_cons_of_mem _ h)

theorem pySplit_ne_empty (s : String) : ∀ w ∈ pySplit s, w ≠ "" := by
  intro w hw
  simp only [pySplit, List.mem_map] at hw
  rcases hw with ⟨l, hl, rfl⟩
  have := (List.mem_filter.mp hl).2
  intro hcontr
  have : l = [] := congrArg String.data hcontr
  simp_all

theorem getLastD_mem {β : Type} (l : List β) : ∀ d : β, l.getLastD d ∈ d :: l := by
  induction l with
  | nil => intro d; simp
  | cons x xs ih =>
    intro d
    have hc : (x :: xs).getLastD d = xs.getLastD x := by
      cases xs <;> rfl
    rcases List.mem_cons.mp (ih x) with h | h
    · rw [hc, h]
      exact List.mem_cons.mpr (Or.inr (List.mem_cons_self x xs))
    · rw [hc]
      exact List.mem_cons.mpr (Or.inr (List.mem_cons.mpr (Or.inr h)))

/-- C3: in deduplication phase 1 (`drop_duplicates(subset=["place_id"])`),
pandas treats the missing-value cells of two place-id-less records as equal,
so the second of two unrelated records with no place identifier is removed —
contradicting the claim that a record with no place identifier is never
removed by this phase.  The two fixture records agree on no comparison key
(name, address or phone), so no other phase can be responsible. -/
theorem C3_missing_place_id_collapsed :
    remove_duplicates [recNoId1, recNoId2] = [recNoId1] ∧
    recNoId1.place_id = none ∧ recNoId2.place_id = none ∧
    nameKey recNoId1 ≠ nameKey recNoId2 ∧
    addrKey recNoId1 ≠ addrKey recNoId2 ∧
    phoneKey recNoId1 ≠ phoneKey recNoId2 := by
  decide

/-- C4: a row with a missing or empty website, or whose crawl produced no
text, receives the all-empty Enrichment Vector (the `process_batch` rows
244–263 short-circuit before any extraction runs). -/
theorem C4_empty_enrichment (website crawl : Option String)
    (il sl al : List (String × String))
    (h : website = none ∨ website = some "" ∨ crawl = none) :
    processRow website crawl il sl al = emptyEnrichVec := by
  rcases h with rfl | rfl | rfl
  · rfl
  · rfl
  · simp only [processRow]
    split
    · rfl
    · rfl

/-- Witness for C4 at a concrete row. -/
theorem C4_witness :
    processRow none (some "some page text") [] [] [] = emptyEnrichVec :=
  C4_empty_enrichment none (some "some page text") [] [] [] (Or.inl rfl)

/-- C6: the three-phase duplicate removal is idempotent — each phase leaves a
batch whose surviving subject rows carry pairwise distinct keys, later phases
only delete rows (sublists), and a phase is the identity on any batch whose
subject keys are already distinct. -/
theorem C6_dedup_idempotent (df : List Rec) :
    remove_duplicates (remove_duplicates df) = remove_duplicates df := by
  simp only [remove_duplicates]
  set d1 := dropDups (fun _ => true) (fun r : Rec => r.place_id) [] df with hd1
  set d2 := dropDups (fun _ => true) (fun r : Rec => (nameKey r, addrKey r)) [] d1 with hd2
  set o := dropDups (fun r : Rec => decide (10 ≤ (phoneKey r).length))
    (fun r : Rec => (nameKey r, phoneKey r)) [] d2 with ho
  have sub21 : List.Sublist d2 d1 := hd2 ▸ dropDups_sublist _ _ d1 []
  have sub32 : List.Sublist o d2 := ho ▸ dropDups_sublist _ _ d2 []
  have sub31 : List.Sublist o d1 := sub32.trans sub21
  have nd1 : ((d1.filter fun _ => true).map fun r : Rec => r.place_id).Nodup :=
    (hd1 ▸ (dropDups_nodup _ _ df []).1)
  have ndo1 : ((o.filter fun _ => true).map fun r : Rec => r.place_id).Nodup :=
    List.Nodup.sublist ((sub31.filter _).map _) nd1
  have h1 : dropDups (fun _ => true) (fun r : Rec => r.place_id) [] o = o :=
    dropDups_fixpoint _ _ o [] ndo1 (by intro k _; simp)
  have nd2 : ((d2.filter fun _ => true).map fun r : Rec => (nameKey r, addrKey r)).Nodup :=
    (hd2 ▸ (dropDups_nodup _ _ d1 []).1)
  have ndo2 : ((o.filter fun _ => true).map fun r : Rec => (nameKey r, addrKey r)).Nodup :=
    List.Nodup.sublist ((sub32.filter _).map _) nd2
  have h2 : dropDups (fun _ => true) (fun r : Rec => (nameKey r, addrKey r)) [] o = o :=
    dropDups_fixpoint _ _ o [] ndo2 (by intro k _; simp)
  have ndo3 : ((o.filter fun r : Rec => decide (10 ≤ (phoneKey r).length)).map
      fun r : Rec => (nameKey r, phoneKey r)).Nodup :=
    (ho ▸ (dropDups_nodup _ _ d2 []).1)
  have h3 : dropDups (fun r : Rec => decide (10 ≤ (phoneKey r).length))
      (fun r : Rec => (nameKey r, phoneKey r)) [] o = o :=
    dropDups_fixpoint _ _ o [] ndo3 (by intro k _; simp)
  rw [h1, h2, h3]

/-- C2 counterexample: the pipeline of `clean_data.main` does not normalize
fields before filtering and deduplication — on a two-record batch whose
addresses differ only in comma spacing, running the stages in the source's
order keeps both records, while the spec's normalize-first order would have
collapsed them. -/
theorem C2_counterexample :
    clean_steps kwEmpty [recComma, recSpace] ≠
      specOrderedSteps kwEmpty [recComma, recSpace] := by
  decide

/-- C2 amended: `main` runs the closed-business filter, the non-therapist
filter and the deduplicator on the raw field values and applies the field
normalizer afterwards; on the fixture batch the raw-key dedup keeps both
records where the normalize-first order would keep one. -/
theorem C2_normalizer_after_dedup :
    (∀ (kw : FilterKeywords) (df : List Rec),
      clean_steps kw df =
        standardize_fields (remove_duplicates
          (filter_non_therapists kw (remove_closed kw df)))) ∧
    (clean_steps kwEmpty [recComma, recSpace]).length = 2 ∧
    (specOrderedSteps kwEmpty [recComma, recSpace]).length = 1 :=
  ⟨fun _ _ => rfl, by decide, by decide⟩

/-- C5: the accepting-patients classifier is four-valued and resolves by the
fixed list priority negative → waitlist → positive with default `Unknown`; in
particular any text containing `practice is full` — regardless of what else it
contains or where — yields `No`. -/
theorem C5_accepting_patients (text : String) :
    (detect_accepting_patients text = "Yes" ∨ detect_accepting_patients text = "No"
      ∨ detect_accepting_patients text = "Waitlist"
      ∨ detect_accepting_patients text = "Unknown") ∧
    (text ≠ "" → acceptNoIndicators.any (containsSub · (lowerS text)) = true →
      detect_accepting_patients text = "No") ∧
    (text ≠ "" → acceptNoIndicators.any (containsSub · (lowerS text)) = false →
      acceptWaitlistIndicators.any (containsSub · (lowerS text)) = true →
      detect_accepting_patients text = "Waitlist") ∧
    (text ≠ "" → acceptNoIndicators.any (containsSub · (lowerS text)) = false →
      acceptWaitlistIndicators.any (containsSub · (lowerS text)) = false →
      acceptYesIndicators.any (containsSub · (lowerS text)) = true →
      detect_accepting_patients text = "Yes") ∧
    (acceptNoIndicators.any (containsSub · (lowerS text)) = false →
      acceptWaitlistIndicators.any (containsSub · (lowerS text)) = false →
      acceptYesIndicators.any (containsSub · (lowerS text)) = false →
      detect_accepting_patients text = "Unknown") ∧
    (containsSub "practice is full" (lowerS text) = true →
      detect_accepting_patients text = "No") := by
  by_cases htext : text = ""
  · subst htext
    exact ⟨Or.inr (Or.inr (Or.inr rfl)),
      fun h => absurd rfl h, fun h => absurd rfl h, fun h => absurd rfl h,
      fun _ _ _ => rfl, fun h => absurd h (by decide)⟩
  · have hpract : containsSub "practice is full" (lowerS text) = true →
        acceptNoIndicators.any (containsSub · (lowerS text)) = true := by
      intro h
      refine List.any_eq_true.mpr ⟨"practice is full", ?_, h⟩
      simp [acceptNoIndicators]
    by_cases hno : acceptNoIndicators.any (containsSub · (lowerS text)) = true
    · have hd : detect_accepting_patients text = "No" := by
        simp [detect_accepting_patients, htext, hno]
      refine ⟨Or.inr (Or.inl hd), fun _ _ => hd, ?_, ?_, ?_, fun _ => hd⟩
      · intro _ hf _
        rw [hf] at hno
        exact absurd hno (by simp)
      · intro _ hf _ _
        rw [hf] at hno
        exact absurd hno (by simp)
      · intro hf _ _
        rw [hf] at hno
        exact absurd hno (by simp)
    · simp only [Bool.not_eq_true] at hno
      by_cases hwait : acceptWaitlistIndicators.any (containsSub · (lowerS text)) = true
      · have hd : detect_accepting_patients text = "Waitlist" := by
          simp [detect_accepting_patients, htext, hno, hwait]
        refine ⟨Or.inr (Or.inr (Or.inl hd)), ?_, fun _ _ _ => hd, ?_, ?_, ?_⟩
        · intro _ ht
          rw [ht] at hno
          exact absurd hno (by simp)
        · intro _ _ hf _
          rw [hf] at hwait
          exact absurd hwait (by simp)
        · intro _ hf _
          rw [hf] at hwait
          exact absurd hwait (by simp)
        · intro h
          rw [hpract h] at hno
          exact absurd hno (by simp)
      · simp only [Bool.not_eq_true] at hwait
        by_cases hyes : acceptYesIndicators.any (containsSub · (lowerS text)) = true
        · have hd : detect_accepting_patients text = "Yes" := by
            simp [detect_accepting_patients, htext, hno, hwait, hyes]
          refine ⟨Or.inl hd, ?_, ?_, fun _ _ _ _ => hd, ?_, ?_⟩
          · intro _ ht
            rw [ht] at hno
            exact absurd hno (by simp)
          · intro _ _ ht
            rw [ht] at hwait
            exact absurd hwait (by simp)
          · intro _ _ hf
            rw [hf] at hyes
            exact absurd hyes (by simp)
          · intro h
            rw [hpract h] at hno
            exact absurd hno (by simp)
        · simp only [Bool.not_eq_true] at hyes
          have hd : detect_accepting_patients text = "Unknown" := by
            simp [detect_accepting_patients, htext, hno, hwait, hyes]
          refine ⟨Or.inr (Or.inr (Or.inr hd)), ?_, ?_, ?_, fun _ _ _ => hd, ?_⟩
          · intro _ ht
            rw [ht] at hno
            exact absurd hno (by simp)
          · intro _ _ ht
            rw [ht] at hwait
            exact absurd hwait (by simp)
          · intro _ _ _ ht
            rw [ht] at hyes
            exact absurd hyes (by simp)
          · intro h
            rw [hpract h] at hno
            exact absurd hno (by simp)

/-- Witness for C5: a text containing both `practice is full` and
`accepting new clients` resolves to `No`. -/
theorem C5_witness :
    detect_accepting_patients
      "Our practice is full, though we were accepting new clients before" = "No" :=
  (C5_accepting_patients
    "Our practice is full, though we were accepting new clients before").2.2.2.2.2
    (by decide)

/-- C7: price extraction aggregates every candidate the regex collects
anywhere in the text (second group included when present), discards
candidates outside `[20, 600]`, and returns `(None, None)` exactly when no
candidate survives, otherwise the minimum and maximum of the survivors; the
three spec examples evaluate as stated. -/
theorem C7_price_range :
    (extract_price_range "Sessions are $150, sliding scale down to $90"
      = (some 90, some 150)) ∧
    (extract_price_range "Rent is $5000" = (none, none)) ∧
    (∀ text : String, '$' ∉ text.data → extract_price_range text = (none, none)) ∧
    (∀ text : String,
      ((collectedPrices text).filter fun p => 20 ≤ p && p ≤ 600) = [] →
      extract_price_range text = (none, none)) ∧
    (∀ (text : String) (a b : Nat), extract_price_range text = (some a, some b) →
      a ∈ collectedPrices text ∧ b ∈ collectedPrices text ∧
      20 ≤ a ∧ a ≤ 600 ∧ 20 ≤ b ∧ b ≤ 600 ∧ a ≤ b ∧
      ∀ c ∈ collectedPrices text, 20 ≤ c → c ≤ 600 → a ≤ c ∧ c ≤ b) := by
  refine ⟨by decide, by decide, ?_, ?_, ?_⟩
  · intro text h
    by_cases htext : text = ""
    · simp [extract_price_range, htext]
    · have hscan := priceScan_no_dollar (text.data.length + 1) text.data h
      simp only [extract_price_range, if_neg htext]
      rw [hscan]
      simp
  · intro text hf
    by_cases htext : text = ""
    · simp [extract_price_range, htext]
    · simp only [extract_price_range, if_neg htext]
      split
      · rfl
      · rw [hf]
  · intro text a b h
    by_cases htext : text = ""
    · rw [htext] at h
      simp [extract_price_range] at h
    · simp only [extract_price_range, if_neg htext] at h
      split at h
      · exact absurd h (by simp)
      · rcases hv : (collectedPrices text).filter fun p => 20 ≤ p && p ≤ 600 with
          _ | ⟨v, vs⟩
        · rw [hv] at h
          exact absurd h (by simp)
        · rw [hv] at h
          have ha : vs.foldl Nat.min v = a := congrArg Prod.fst h |> Option.some.inj
          have hb : vs.foldl Nat.max v = b := congrArg Prod.snd h |> Option.some.inj
          have haMem : a ∈ v :: vs := ha ▸ foldl_min_mem vs v
          have hbMem : b ∈ v :: vs := hb ▸ foldl_max_mem vs v
          have hsub : ∀ c ∈ v :: vs,
              c ∈ collectedPrices text ∧ 20 ≤ c ∧ c ≤ 600 := by
            intro c hc
            rw [← hv] at hc
            have h1 := List.mem_of_mem_filter hc
            have h2 := List.of_mem_filter hc
            rw [Bool.and_eq_true, decide_eq_true_eq, decide_eq_true_eq] at h2
            exact ⟨h1, h2.1, h2.2⟩
          rcases hsub a haMem with ⟨haC, ha20, ha600⟩
          rcases hsub b hbMem with ⟨hbC, hb20, hb600⟩
          refine ⟨haC, hbC, ha20, ha600, hb20, hb600, ?_, ?_⟩
          · exact ha ▸ foldl_min_le vs v b hbMem
          · intro c hc h20 h600
            have hcv : c ∈ v :: vs := by
              rw [← hv]
              exact List.mem_filter.mpr ⟨hc, by simp [h20, h600]⟩
            exact ⟨ha ▸ foldl_min_le vs v c hcv, hb ▸ foldl_max_ge vs v c hcv⟩

/-- Witness for C7: a text with no dollar sign yields `(None, None)`. -/
theorem C7_witness : extract_price_range "fees vary by provider" = (none, none) :=
  C7_price_range.2.2.1 "fees vary by provider" (by decide)

/-- C8: a record survives the non-therapist filter exactly when it is in the
batch and (name-exclusion or category-exclusion) implies a category-inclusion
hit — i.e. it is excluded iff an exclusion phrase matches and no inclusion
phrase rescues it. -/
theorem C8_non_entity_filter (kw : FilterKeywords) (df : List Rec) (r : Rec) :
    r ∈ filter_non_therapists kw df ↔
      r ∈ df ∧ ((nameExcluded kw r = true ∨ catExcluded kw r = true) →
        catIncluded kw r = true) := by
  simp only [filter_non_therapists, List.mem_filter]
  constructor
  · rintro ⟨hdf, hp⟩
    refine ⟨hdf, ?_⟩
    intro hor
    by_contra hC
    simp only [Bool.not_eq_true] at hC
    rcases hor with h | h <;> simp [h, hC] at hp
  · rintro ⟨hdf, himp⟩
    refine ⟨hdf, ?_⟩
    by_cases hnx : nameExcluded kw r = true
    · simp [hnx, himp (Or.inl hnx)]
    · by_cases hcx : catExcluded kw r = true
      · simp [hcx, himp (Or.inr hcx)]
      · simp only [Bool.not_eq_true] at hnx hcx
        simp [hnx, hcx]

/-- Witness for C8: the name-excluded but category-included record survives
(and its name really does match an exclusion phrase). -/
theorem C8_witness :
    healingRec ∈ filter_non_therapists kwRescue [healingRec] ∧
    nameExcluded kwRescue healingRec = true :=
  ⟨(C8_non_entity_filter kwRescue [healingRec] healingRec).mpr
      ⟨by decide, fun _ => by decide⟩,
   by decide⟩

/-- C9: after the credential, business-suffix and honorific removals, the
name parser returns (first token, last token) for two or more remaining
whitespace tokens, (empty, the token) for exactly one, (empty, empty) for
none, and the last name is nonempty whenever any token remains. -/
theorem C9_name_parts (name : String) :
    (pySplit (cleanNameS name) = [] → extract_name_parts name = ("", "")) ∧
    (∀ p, pySplit (cleanNameS name) = [p] → extract_name_parts name = ("", p)) ∧
    (∀ p q rest, pySplit (cleanNameS name) = p :: q :: rest →
      extract_name_parts name = (p, rest.getLastD q)) ∧
    (pySplit (cleanNameS name) ≠ [] → (extract_name_parts name).2 ≠ "") := by
  by_cases hname : name = ""
  · subst hname
    have hcl : pySplit (cleanNameS "") = [] := by decide
    refine ⟨fun _ => rfl, ?_, ?_, ?_⟩
    · intro p hp
      rw [hcl] at hp
      exact absurd hp (by simp)
    · intro p q rest hp
      rw [hcl] at hp
      exact absurd hp (by simp)
    · intro hne
      exact absurd hcl hne
  · refine ⟨?_, ?_, ?_, ?_⟩
    · intro hp
      simp only [extract_name_parts, if_neg hname]
      rw [hp]
    · intro p hp
      simp only [extract_name_parts, if_neg hname]
      rw [hp]
    · intro p q rest hp
      simp only [extract_name_parts, if_neg hname]
      rw [hp]
    · intro hne
      rcases hsplit : pySplit (cleanNameS name) with _ | ⟨p, _ | ⟨q, rest⟩⟩
      · exact absurd hsplit hne
      · have hp := pySplit_ne_empty (cleanNameS name) p (by rw [hsplit]; simp)
        simp only [extract_name_parts, if_neg hname]
        rw [hsplit]
        simpa using hp
      · have hlast : rest.getLastD q ∈ pySplit (cleanNameS name) := by
          rw [hsplit]
          exact List.mem_cons_of_mem _ (getLastD_mem rest q)
        have hq := pySplit_ne_empty (cleanNameS name) _ hlast
        simp only [extract_name_parts, if_neg hname]
        rw [hsplit]
        simpa using hq

/-- Witness for C9: `"Jane Doe, LCSW"` parses to `("Jane", "Doe")`. -/
theorem C9_witness : extract_name_parts "Jane Doe, LCSW" = ("Jane", "Doe") :=
  (C9_name_parts "Jane Doe, LCSW").2.2.1 "Jane" "Doe" [] (by decide)

/-- C10: the license-type guesser only returns one of the nine listed values,
and decides by the fixed marker priority (psychiatrist/MD, PsyD, PhD, LCSW,
LCPC, LPC, LCMFT, LMFT, else empty) over the lowercased concatenation of name
and category, so several matching markers resolve to the highest-priority
one. -/
theorem C10_license_type (name category : String) :
    guess_license_type name category ∈
      ["MD/Psychiatrist", "PsyD", "PhD", "LCSW", "LCPC", "LPC", "LCMFT",
       "LMFT", ""] ∧
    (mdMarker (lowerS (name ++ " " ++ category)) = true →
      guess_license_type name category = "MD/Psychiatrist") ∧
    (mdMarker (lowerS (name ++ " " ++ category)) = false →
      psydMarker (lowerS (name ++ " " ++ category)) = true →
      guess_license_type name category = "PsyD") ∧
    (mdMarker (lowerS (name ++ " " ++ category)) = false →
      psydMarker (lowerS (name ++ " " ++ category)) = false →
      phdMarker (lowerS (name ++ " " ++ category)) = true →
      guess_license_type name category = "PhD") ∧
    (mdMarker (lowerS (name ++ " " ++ category)) = false →
      psydMarker (lowerS (name ++ " " ++ category)) = false →
      phdMarker (lowerS (name ++ " " ++ category)) = false →
      lcswMarker (lowerS (name ++ " " ++ category)) = true →
      guess_license_type name category = "LCSW") ∧
    (mdMarker (lowerS (name ++ " " ++ category)) = false →
      psydMarker (lowerS (name ++ " " ++ category)) = false →
      phdMarker (lowerS (name ++ " " ++ category)) = false →
      lcswMarker (lowerS (name ++ " " ++ category)) = false →
      lcpcMarker (lowerS (name ++ " " ++ category)) = true →
      guess_license_type name category = "LCPC") ∧
    (mdMarker (lowerS (name ++ " " ++ category)) = false →
      psydMarker (lowerS (name ++ " " ++ category)) = false →
      phdMarker (lowerS (name ++ " " ++ category)) = false →
      lcswMarker (lowerS (name ++ " " ++ category)) = false →
      lcpcMarker (lowerS (name ++ " " ++ category)) = false →
      lpcMarker (lowerS (name ++ " " ++ category)) = true →
      guess_license_type name category = "LPC") ∧
    (mdMarker (lowerS (name ++ " " ++ category)) = false →
      psydMarker (lowerS (name ++ " " ++ category)) = false →
      phdMarker (lowerS (name ++ " " ++ category)) = false →
      lcswMarker (lowerS (name ++ " " ++ category)) = false →
      lcpcMarker (lowerS (name ++ " " ++ category)) = false →
      lpcMarker (lowerS (name ++ " " ++ category)) = false →
      lcmftMarker (lowerS (name ++ " " ++ category)) = true →
      guess_license_type name category = "LCMFT") ∧
    (mdMarker (lowerS (name ++ " " ++ category)) = false →
      psydMarker (lowerS (name ++ " " ++ category)) = false →
      phdMarker (lowerS (name ++ " " ++ category)) = false →
      lcswMarker (lowerS (name ++ " " ++ category)) = false →
      lcpcMarker (lowerS (name ++ " " ++ category)) = false →
      lpcMarker (lowerS (name ++ " " ++ category)) = false →
      lcmftMarker (lowerS (name ++ " " ++ category)) = false →
      lmftMarker (lowerS (name ++ " " ++ category)) = true →
      guess_license_type name category = "LMFT") ∧
    (mdMarker (lowerS (name ++ " " ++ category)) = false →
      psydMarker (lowerS (name ++ " " ++ category)) = false →
      phdMarker (lowerS (name ++ " " ++ category)) = false →
      lcswMarker (lowerS (name ++ " " ++ category)) = false →
      lcpcMarker (lowerS (name ++ " " ++ category)) = false →
      lpcMarker (lowerS (name ++ " " ++ category)) = false →
      lcmftMarker (lowerS (name ++ " " ++ category)) = false →
      lmftMarker (lowerS (name ++ " " ++ category)) = false →
      guess_license_type name category = "") := by
  simp only [guess_license_type, mdMarker, psydMarker, phdMarker, lcswMarker,
    lcpcMarker, lpcMarker, lcmftMarker, lmftMarker]
  split_ifs with h1 h2 h3 h4 h5 h6 h7 h8 <;>
    refine ⟨by decide, ?_, ?_, ?_, ?_, ?_, ?_, ?_, ?_, ?_⟩ <;>
    intros <;> first | rfl | simp_all

/-- Witness for C10: markers for psychiatrist, LCSW and LPC all present
resolve to the highest-priority `MD/Psychiatrist`. -/
theorem C10_witness :
    guess_license_type "Dr. Smith, Psychiatrist" "Counseling lcsw lpc"
      = "MD/Psychiatrist" :=
  (C10_license_type "Dr. Smith, Psychiatrist" "Counseling lcsw lpc").2.1
    (by decide)

/-- `aliasHit` split by alias length. -/
theorem aliasHit_iff (a tl : String) :
    aliasHit a tl = true ↔
      ((a.length ≤ 3 ∧ searchWord a tl = true) ∨
       (3 < a.length ∧ containsSub a tl = true)) := by
  unfold aliasHit
  by_cases hl : a.length ≤ 3
  · rw [if_pos hl]
    constructor
    · intro h
      exact Or.inl ⟨hl, h⟩
    · rintro (⟨_, h⟩ | ⟨h3, _⟩)
      · exact h
      · omega
  · rw [if_neg hl]
    constructor
    · intro h
      exact Or.inr ⟨by omega, h⟩
    · rintro (⟨h3, _⟩ | ⟨_, h⟩)
      · omega
      · exact h

/-- C1 amended: the specialization/approach scanner matches an alias of
length at most 3 only at word boundaries of the lowercased text and longer
aliases anywhere as substrings, while the insurance scanner matches every
alias as a plain substring regardless of length; each returns the strictly
sorted list of the distinct canonical names hit. -/
theorem C1_alias_scanners :
    (∀ (text : String) (lookup : List (String × String)) (c : String),
      c ∈ match_specializations text lookup ↔
        text ≠ "" ∧ ∃ p ∈ lookup, p.2 = c ∧
          ((p.1.length ≤ 3 ∧ searchWord p.1 (lowerS text) = true) ∨
           (3 < p.1.length ∧ containsSub p.1 (lowerS text) = true))) ∧
    (∀ (text : String) (lookup : List (String × String)) (c : String),
      c ∈ match_insurance text lookup ↔
        text ≠ "" ∧ ∃ p ∈ lookup, p.2 = c ∧ containsSub p.1 (lowerS text) = true) ∧
    (∀ (text : String) (lookup : List (String × String)),
      (match_specializations text lookup).Pairwise (· < ·)) ∧
    (∀ (text : String) (lookup : List (String × String)),
      (match_insurance text lookup).Pairwise (· < ·)) := by
  refine ⟨?_, ?_, ?_, ?_⟩
  · intro text lookup c
    by_cases htext : text = ""
    · simp [match_specializations, htext]
    · simp only [match_specializations, if_neg htext, mem_sortedDedup,
        List.mem_filterMap]
      constructor
      · rintro ⟨p, hp, hf⟩
        by_cases hh : aliasHit p.1 (lowerS text) = true
        · rw [if_pos hh] at hf
          exact ⟨htext, p, hp, Option.some.inj hf, (aliasHit_iff _ _).mp hh⟩
        · rw [if_neg hh] at hf
          exact absurd hf (by simp)
      · rintro ⟨_, p, hp, hc, hhit⟩
        refine ⟨p, hp, ?_⟩
        rw [if_pos ((aliasHit_iff _ _).mpr hhit), hc]
  · intro text lookup c
    by_cases htext : text = ""
    · simp [match_insurance, htext]
    · simp only [match_insurance, if_neg htext, mem_sortedDedup,
        List.mem_filterMap]
      constructor
      · rintro ⟨p, hp, hf⟩
        by_cases hh : containsSub p.1 (lowerS text) = true
        · rw [if_pos hh] at hf
          exact ⟨htext, p, hp, Option.some.inj hf, hh⟩
        · rw [if_neg hh] at hf
          exact absurd hf (by simp)
      · rintro ⟨_, p, hp, hc, hhit⟩
        refine ⟨p, hp, ?_⟩
        rw [if_pos hhit, hc]
  · intro text lookup
    by_cases htext : text = ""
    · simp [match_specializations, htext]
    · simp only [match_specializations, if_neg htext]
      exact pairwise_sortedDedup _
  · intro text lookup
    by_cases htext : text = ""
    · simp [match_insurance, htext]
    · simp only [match_insurance, if_neg htext]
      exact pairwise_sortedDedup _

/-- C1 counterexample: the insurance scanner reports a hit for the
three-character alias `art` inside the word `bart`, where no word-boundary
occurrence exists — so short aliases are not word-boundary-restricted in the
insurance scanner. -/
theorem C1_counterexample :
    match_insurance "bart" [("art", "Art Therapy")] = ["Art Therapy"] ∧
    "art".length ≤ 3 ∧
    searchWord "art" (lowerS "bart") = false := by
  decide

/-- Witness for C1: the short alias `cbt` is found at a word boundary of
`CBT is great`. -/
theorem C1_witness :
    "CBT" ∈ match_specializations "CBT is great" [("cbt", "CBT")] :=
  (C1_alias_scanners.1 "CBT is great" [("cbt", "CBT")] "CBT").mpr
    ⟨by decide, ("cbt", "CBT"), by decide, by decide,
     Or.inl ⟨by decide, by decide⟩⟩
